import Mathlib

/-!
Verification development for the okpd2_classifier repository.

The Python sources under `src/` are shallowly embedded as executable Lean
definitions: Mongo documents become records with `Option`-valued fields,
Mongo update operations become pure functions on lists of documents, and
the worker loops become step functions or fuel-bounded recursions.  The
definitions keep the source names (`parse_classification_response`,
`get_pending_products_atomic`, `insert_products_batch`, ...) and mirror the
source logic field by field; theorems about the spec claims follow at the
end of the file.
-/

/-! ### Character-level helpers for the Python string operations

`str.strip`, `str.split(sep)`, `str.lower`, the substring test `a in b`
and `str.split()` (whitespace words) are modelled on `List Char` so that
every function is structurally recursive and kernel-evaluable. -/

/-- Python `str.strip()`: drop leading and trailing whitespace. -/
def trimChars (l : List Char) : List Char :=
  ((l.dropWhile Char.isWhitespace).reverse.dropWhile Char.isWhitespace).reverse

/-- String form of `trimChars`. -/
def trimStr (s : String) : String :=
  String.mk (trimChars s.data)

/-- Python `str.split(sep)` for a single-character separator: splits at every
occurrence, keeping empty fragments (`"a||b".split("|") = ["a","","b"]`). -/
def splitChar (sep : Char) : List Char → List (List Char)
  | [] => [[]]
  | c :: cs =>
    let r := splitChar sep cs
    if c = sep then [] :: r
    else
      match r with
      | [] => [[c]]
      | t :: ts => (c :: t) :: ts

/-- String form of `splitChar`. -/
def splitStr (sep : Char) (s : String) : List String :=
  (splitChar sep s.data).map String.mk

/-- Python `str.lower()` (ASCII case mapping suffices for the proofs here). -/
def lowerStr (s : String) : String :=
  String.mk (s.data.map Char.toLower)

/-- Python substring test `needle in haystack` (contiguous substring). -/
def containsSub (haystack needle : List Char) : Bool :=
  needle.isPrefixOf haystack ||
    match haystack with
    | [] => false
    | _ :: t => containsSub t needle

/-- First maximal run of non-whitespace characters: `s.split()[0]` when
`s.split()` is non-empty, `[]` when the string is all whitespace. -/
def firstWord (l : List Char) : List Char :=
  (l.dropWhile Char.isWhitespace).takeWhile (fun c => !c.isWhitespace)

/-! ### Stage-1 response parsing

Embedded from `src/src/services/ai_client.py`,
`PromptBuilder.parse_classification_response`. -/

/-- The regular expression `^\d{2}\.\d{2}\.\d$` used to validate OKPD2
five-digit group codes. -/
def isValidOkpd2 (s : String) : Bool :=
  match s.data with
  | [a, b, c, d, e, f, g] =>
    a.isDigit && b.isDigit && c == '.' && d.isDigit && e.isDigit && f == '.' && g.isDigit
  | _ => false

/-- The fuzzy label-matching predicate of `parse_classification_response`:
lower-cased, stripped names match when either contains the other as a
substring or their first whitespace-separated words agree. -/
def fuzzyNameMatch (mapName productName : String) : Bool :=
  let nl := trimChars (lowerStr mapName).data
  let pl := trimChars (lowerStr productName).data
  containsSub nl pl || containsSub pl nl ||
    (!(firstWord nl).isEmpty && !(firstWord pl).isEmpty && firstWord nl == firstWord pl)

/-- The response label is resolved to a product id by exact dictionary lookup
first, falling back to the first fuzzy match in insertion order. -/
def findProductId (productMap : List (String × String)) (productName : String) : Option String :=
  match productMap.find? (fun p => p.1 == productName) with
  | some p => some p.2
  | none => (productMap.find? (fun p => fuzzyNameMatch p.1 productName)).map (fun p => p.2)

/-- Python dict assignment `m[k] = v`: overwrite in place when the key exists,
append otherwise. -/
def dictInsert {α : Type} (m : List (String × α)) (k : String) (v : α) : List (String × α) :=
  if m.any (fun p => p.1 == k) then m.map (fun p => if p.1 == k then (k, v) else p)
  else m ++ [(k, v)]

/-- The code tokens taken from one response line: at most the first five
fields after the label (`parts[1:6]`), each stripped, keeping only the ones
matching the OKPD2 group format, in response order. -/
def extractGroups (parts : List String) : List String :=
  (((parts.drop 1).take 5).map trimStr).filter isValidOkpd2

/-- Embedded from `PromptBuilder.parse_classification_response`
(`src/src/services/ai_client.py`): one results entry per matched response
line with at least one valid group code; lines without `|`, with an
unmatched label, or with no valid code are skipped. -/
def parseLine (productMap : List (String × String)) (results : List (String × List String))
    (line : String) : List (String × List String) :=
  let parts := splitStr '|' line
  if parts.length < 2 then results
  else
    match findProductId productMap (trimStr (parts.headD "")) with
    | none => results
    | some pid =>
      let groups := extractGroups parts
      if groups.isEmpty then results else dictInsert results pid groups

/-- The full response parse: `parseLine` folded over the lines of the
stripped response, starting from an empty results dict. -/
def parse_classification_response (response : String) (productMap : List (String × String)) :
    List (String × List String) :=
  (splitStr '\n' (trimStr response)).foldl (parseLine productMap) []

/-! ### Stage-1 result updates

Embedded from `src/src/services/classifier.py`,
`StageOneClassifier._update_products_with_results` and
`StageOneClassifier._mark_products_failed`. -/

/-- The per-stage status values of `src/src/models/domain.py`. -/
inductive PStatus
  | pending
  | processing
  | classified
  | none_classified
  | failed
deriving DecidableEq, Repr

/-- One product of a Stage-1 batch (`_id` and `title` as fetched). -/
structure BatchItem where
  docId : String
  title : String
deriving DecidableEq, Repr

/-- The `product_map` built in `StageOneClassifier.process_batch`: a Python
dict from title to product id, in batch order. -/
def buildProductMap (products : List BatchItem) : List (String × String) :=
  products.foldl (fun m p => dictInsert m p.title p.docId) []

/-- The update document written for one product after a Stage-1 batch. -/
structure Stage1Update where
  docId : String
  status_stage1 : PStatus
  okpd_group : Option (List String)
  worker_id : String
deriving DecidableEq, Repr

/-- Embedded from `StageOneClassifier._update_products_with_results`: a
product present in the parsed results is marked `classified` with its group
list, every other product of the batch is marked `none_classified`. -/
def updateProductsWithResults (workerId : String) (products : List BatchItem)
    (results : List (String × List String)) : List Stage1Update :=
  products.map (fun p =>
    match results.find? (fun r => r.1 == p.docId) with
    | some r => ⟨p.docId, .classified, some r.2, workerId⟩
    | none => ⟨p.docId, .none_classified, none, workerId⟩)

/-- Embedded from `StageOneClassifier._mark_products_failed`. -/
def markProductsFailed (workerId : String) (productIds : List String) : List Stage1Update :=
  productIds.map (fun pid => ⟨pid, .failed, none, workerId⟩)

/-! ### The target store documents and the atomic claim operations

Embedded from `src/src/storage/target_mongo.py` and
`src/src/services/classifier_stage2.py`.  A document carries both field
families that occur in the repository: the Stage-1 pipeline writes
`status_stage1` / `okpd_groups` / `worker_id` / `processing_started_at`,
while the Stage-2 claimer and the monitoring endpoints read and write the
legacy-named fields `status_stg1` / `okpd_group` / `status_stg2` /
`stage2_worker_id` / `stage2_started_at`.  Absent Mongo fields are `none`;
timestamps are naturals. -/

structure Doc where
  docId : Nat
  status_stage1 : PStatus
  worker_id : Option String
  processing_started_at : Option Nat
  okpd_groups : Option (List String)
  status_stg1 : Option PStatus
  okpd_group : Option (List String)
  status_stg2 : Option PStatus
  stage2_worker_id : Option String
  stage2_started_at : Option Nat
deriving DecidableEq, Repr

/-- A default document, used only as the out-of-range value of `List.getD`. -/
def dfltDoc : Doc :=
  ⟨0, .pending, none, none, none, none, none, none, none, none⟩

/-- Mongo `find_one_and_update` with `return_document=True`: update the first
document satisfying the filter and return the updated document, leaving every
other document untouched. -/
def findOneAndUpdate (p : Doc → Bool) (u : Doc → Doc) : List Doc → Option Doc × List Doc
  | [] => (none, [])
  | d :: ds =>
    if p d then (some (u d), u d :: ds)
    else
      let r := findOneAndUpdate p u ds
      (r.1, d :: r.2)

/-- The claim loop shared by both stages: up to `limit` single-document
claims, stopping at the first miss (`for _ in range(limit): ... else break`).
Returns the claimed documents and the updated store. -/
def claimLoop (p : Doc → Bool) (u : Doc → Doc) : Nat → List Doc → List Doc × List Doc
  | 0, store => ([], store)
  | Nat.succ n, store =>
    match findOneAndUpdate p u store with
    | (none, s) => ([], s)
    | (some d, s) =>
      let r := claimLoop p u n s
      (d :: r.1, r.2)

/-- The Stage-1 claim filter: `{"status_stage1": "pending"}`. -/
def stage1ClaimFilter (d : Doc) : Bool :=
  d.status_stage1 == .pending

/-- The Stage-1 claim update: set `status_stage1 = processing`, `worker_id`
and `processing_started_at` in one `$set`. -/
def stage1ClaimUpdate (workerId : Option String) (now : Nat) (d : Doc) : Doc :=
  { d with status_stage1 := .processing, worker_id := workerId,
           processing_started_at := some now }

/-- Embedded from `TargetMongoStore.get_pending_products_atomic`
(`src/src/storage/target_mongo.py`). -/
def get_pending_products_atomic (limit : Nat) (workerId : Option String) (now : Nat)
    (store : List Doc) : List Doc × List Doc :=
  claimLoop stage1ClaimFilter (stage1ClaimUpdate workerId now) limit store

/-- The Stage-2 claim filter of `get_pending_products_for_class`:
`status_stg1 = classified`, some element of `okpd_group` matches the regex
`^{okpd_class}\.`, and `status_stg2` is absent or `pending`. -/
def stage2ClaimFilter (okpdClass : String) (d : Doc) : Bool :=
  d.status_stg1 == some .classified &&
    (match d.okpd_group with
     | some gs => gs.any (fun g => (okpdClass ++ ".").data.isPrefixOf g.data)
     | none => false) &&
    (d.status_stg2 == none || d.status_stg2 == some .pending)

/-- The Stage-2 claim update: set `status_stg2 = processing`,
`stage2_started_at` and `stage2_worker_id` in one `$set`. -/
def stage2ClaimUpdate (workerId : String) (now : Nat) (d : Doc) : Doc :=
  { d with status_stg2 := some .processing, stage2_started_at := some now,
           stage2_worker_id := some workerId }

/-- Embedded from `StageTwoClassifier.get_pending_products_for_class`
(`src/src/services/classifier_stage2.py`). -/
def get_pending_products_for_class (okpdClass : String) (limit : Nat) (workerId : String)
    (now : Nat) (store : List Doc) : List Doc × List Doc :=
  claimLoop (stage2ClaimFilter okpdClass) (stage2ClaimUpdate workerId now) limit store

/-- The claim-ownership invariant of the spec for one record: a record in
`processing` for a stage carries that stage's worker id and claim
timestamp. -/
def ClaimInvPred (d : Doc) : Prop :=
  (d.status_stage1 = .processing → d.worker_id ≠ none ∧ d.processing_started_at ≠ none) ∧
    (d.status_stg2 = some .processing → d.stage2_worker_id ≠ none ∧ d.stage2_started_at ≠ none)

instance (d : Doc) : Decidable (ClaimInvPred d) := by
  unfold ClaimInvPred; infer_instance

/-- The claim-ownership invariant over a whole store. -/
def ClaimInv (store : List Doc) : Prop :=
  ∀ d ∈ store, ClaimInvPred d

instance (store : List Doc) : Decidable (ClaimInv store) := by
  unfold ClaimInv; infer_instance

/-! ### The stuck-record cleanup endpoint

Embedded from `src/src/api/endpoints/monitoring.py`,
`cleanup_stuck_products` (POST `/workers/cleanup-stuck`). -/

/-- A record is stuck when `status_stg1 = "processing"` and its
`processing_started_at` is older than the cutoff (now minus ten minutes). -/
def isStuck (cutoff : Nat) (d : Doc) : Bool :=
  d.status_stg1 == some .processing &&
    (match d.processing_started_at with
     | some t => t < cutoff
     | none => false)

/-- The `$set` document of the cleanup endpoint: back to `pending` with
`processing_started_at` and `worker_id` cleared. -/
def stuckReset (d : Doc) : Doc :=
  { d with status_stg1 := some .pending, processing_started_at := none, worker_id := none }

/-- The `update_many` of the cleanup endpoint: every stuck record is reset to
`pending` with `processing_started_at` and `worker_id` cleared. -/
def cleanup_stuck_products (cutoff : Nat) (store : List Doc) : List Doc :=
  store.map (fun d => if isStuck cutoff d then stuckReset d else d)

/-- The Mongo write operations the long-running loops of the repository
perform. -/
inductive StoreOp
  | claimStage1
  | claimStage2
  | bulkUpdateProducts
  | insertBatch
  | updateMigrationJob
  | cleanupStuck
deriving DecidableEq, Repr

/-- Store operations of one iteration of
`StageOneClassifier.run_continuous_classification`
(claim, then bulk status update). -/
def stage1WorkerLoopOps : List StoreOp :=
  [.claimStage1, .bulkUpdateProducts]

/-- Store operations of one iteration of
`StageTwoClassifier.run_continuous_classification`. -/
def stage2WorkerLoopOps : List StoreOp :=
  [.claimStage2, .bulkUpdateProducts]

/-- Store operations of the migration loop
(`ProductMigrator._migrate_collection` via the migration worker). -/
def migrationWorkerLoopOps : List StoreOp :=
  [.insertBatch, .updateMigrationJob]

/-- Every store operation some periodically running loop of the repository
performs: the three worker loops above are the only recurring tasks; the
FastAPI lifespan of `src/src/main.py` only opens a Redis connection and
starts no background job. -/
def periodicLoopOps : List StoreOp :=
  stage1WorkerLoopOps ++ stage2WorkerLoopOps ++ migrationWorkerLoopOps

/-! ### The Stage-1 retry loop

Embedded from `src/src/services/classifier.py`,
`StageOneClassifier.process_batch`.  The external call of attempt number `k`
is abstracted as `attemptOf k`: either a successful response whose parsed
results classify the listed product ids, or an exception of one of the four
recognised kinds.  `fuel` bounds the total number of loop iterations and is
irrelevant as soon as it exceeds the retry budget. -/

/-- The four error classes `process_batch` distinguishes by inspecting the
exception text: timeouts, HTTP 429 rate limits, HTTP 529 overloads, and
everything else. -/
inductive ErrKind
  | timeout
  | rateLimit
  | overload
  | otherError
deriving DecidableEq, Repr

/-- One external classification attempt. -/
inductive Attempt
  | ok (classifiedIds : List String)
  | err (k : ErrKind)
deriving DecidableEq, Repr

/-- How one `process_batch` call ends: a result dictionary, a raised
exception, or falling off the end of the `while` loop (Python returns
`None`). -/
inductive BatchOutcome
  | returned (classified noneClassified : Nat)
  | raised
  | noneReturn
deriving DecidableEq, Repr

/-- The observable effects of one `process_batch` call: its outcome, the ids
marked `failed`, the ids given a terminal classified/none_classified update,
and the index of the next unconsumed attempt. -/
structure ProcTrace where
  outcome : BatchOutcome
  markedFailed : List String
  finalized : List String
  next : Nat
deriving DecidableEq, Repr

/-- The retry loop of `process_batch`: `while retry_count < max_retries`,
with the timeout / 429 / 529 / other branches of the `except` block,
including the bisection of timeout batches larger than ten items on the
next-to-last retry, and the fall-through `return None` when the `while`
condition fails after a `continue`. -/
def processBatchAux (maxRetries : Nat) (attemptOf : Nat → Attempt) :
    Nat → List String → Nat → Nat → ProcTrace
  | 0, _, _, k => ⟨.noneReturn, [], [], k⟩
  | Nat.succ fuel, products, retryCount, k =>
    if retryCount < maxRetries then
      match attemptOf k with
      | .ok ids =>
        ⟨.returned (products.filter (fun x => ids.contains x)).length
                   (products.filter (fun x => !ids.contains x)).length,
         [], products, k + 1⟩
      | .err .timeout =>
        let rc := retryCount + 1
        if rc < maxRetries then
          if rc = maxRetries - 1 && decide (10 < products.length) then
            let mid := products.length / 2
            let t1 := processBatchAux maxRetries attemptOf fuel (products.take mid) 0 (k + 1)
            match t1.outcome with
            | .returned c1 n1 =>
              let t2 := processBatchAux maxRetries attemptOf fuel (products.drop mid) 0 t1.next
              match t2.outcome with
              | .returned c2 n2 =>
                ⟨.returned (c1 + c2) (n1 + n2), t1.markedFailed ++ t2.markedFailed,
                 t1.finalized ++ t2.finalized, t2.next⟩
              | _ =>
                ⟨.raised, t1.markedFailed ++ t2.markedFailed,
                 t1.finalized ++ t2.finalized, t2.next⟩
            | _ => ⟨.raised, t1.markedFailed, t1.finalized, t1.next⟩
          else processBatchAux maxRetries attemptOf fuel products rc (k + 1)
        else ⟨.raised, products, [], k + 1⟩
      | .err .rateLimit =>
        let rc := retryCount + 1
        if rc < maxRetries then processBatchAux maxRetries attemptOf fuel products rc (k + 1)
        else ⟨.raised, products, [], k + 1⟩
      | .err .overload =>
        let rc := retryCount + 1
        if rc < maxRetries + 2 then processBatchAux maxRetries attemptOf fuel products rc (k + 1)
        else ⟨.raised, products, [], k + 1⟩
      | .err .otherError => ⟨.raised, products, [], k + 1⟩
    else ⟨.noneReturn, [], [], k⟩

/-- Embedded from `StageOneClassifier.process_batch`: the empty-batch guard
returns a zero result at once; otherwise the retry loop runs with
`retry_count = 0`.  On success every product of the batch receives a
terminal update (`_update_products_with_results`); the classified count is
the number of parsed results. -/
def process_batch (fuel maxRetries : Nat) (attemptOf : Nat → Attempt)
    (products : List String) (k : Nat) : ProcTrace :=
  if products.isEmpty then ⟨.returned 0 0, [], [], k⟩
  else processBatchAux maxRetries attemptOf fuel products 0 k

/-! ### The continuous-loop batch-size controller

Embedded from `src/src/services/classifier.py`,
`StageOneClassifier.run_continuous_classification`.  One loop iteration
either processes a batch successfully, hits a timeout error, hits any other
error, or finds the queue empty.  (The very first iteration requests a
batch of one; the controller below is the steady-state update of
`current_batch_size` and `consecutive_timeouts`.) -/

structure LoopState where
  currentBatchSize : Nat
  consecutiveTimeouts : Nat
deriving DecidableEq, Repr

inductive LoopEvent
  | processed
  | timeoutError
  | otherError
  | queueEmpty
deriving DecidableEq, Repr

/-- One iteration of the continuous-classification loop, as it updates the
requested batch size: success resets the timeout counter and doubles the
size up to the configured ceiling (`self.batch_size`); a timeout increments
the counter and halves the size with a hard floor of 10, but only from the
second consecutive timeout on; any other error changes nothing; an empty
queue resets both to their initial values. -/
def run_continuous_step (ceiling : Nat) (s : LoopState) (e : LoopEvent) : LoopState :=
  match e with
  | .processed =>
    ⟨if s.currentBatchSize < ceiling then min (s.currentBatchSize * 2) ceiling
      else s.currentBatchSize, 0⟩
  | .timeoutError =>
    let ct := s.consecutiveTimeouts + 1
    ⟨if 2 ≤ ct then max 10 (s.currentBatchSize / 2) else s.currentBatchSize, ct⟩
  | .otherError => s
  | .queueEmpty => ⟨ceiling, 0⟩

/-! ### The migration engine

Embedded from `src/src/storage/source_mongo.py`,
`src/src/storage/target_mongo.py` and
`src/src/services/product_migrator.py`.  Source ObjectIds are modelled as
naturals (they increase monotonically in insertion order, which is what the
`_id > last_id` pagination relies on). -/

/-- One source record, projected to `_id` and `title`. -/
structure SrcProduct where
  oid : Nat
  title : String
deriving DecidableEq, Repr

/-- One target record as written by the migration
(`TargetMongoStore.insert_products_batch` document shape). -/
structure TDoc where
  title : String
  source_collection : String
  source_id : Nat
  status_stage1 : PStatus
deriving DecidableEq, Repr

/-- Presence of the unique key `(source_id, source_collection)` in the
target store. -/
def hasSourceKey (store : List TDoc) (sid : Nat) (coll : String) : Bool :=
  store.any (fun d => d.source_id == sid && d.source_collection == coll)

structure InsertResult where
  inserted : Nat
  duplicates : Nat
  store : List TDoc
deriving DecidableEq, Repr

/-- Embedded from `TargetMongoStore.insert_products_batch`: an unordered
`insert_many` under the unique index on `(source_id, source_collection)`.
A record whose key is already present raises a duplicate-key write error
that is counted, not propagated; every other record is inserted with
`status_stage1 = pending`. -/
def insert_products_batch (store : List TDoc) (products : List SrcProduct)
    (collName : String) : InsertResult :=
  match products with
  | [] => ⟨0, 0, store⟩
  | p :: ps =>
    if hasSourceKey store p.oid collName then
      let r := insert_products_batch store ps collName
      ⟨r.inserted, r.duplicates + 1, r.store⟩
    else
      let r := insert_products_batch (store ++ [⟨p.title, collName, p.oid, .pending⟩]) ps collName
      ⟨r.inserted + 1, r.duplicates, r.store⟩

/-- Embedded from `SourceMongoStore.get_products_batch`: the first `limit`
records, restricted to `_id > last_id` when a cursor is given. -/
def get_products_batch (coll : List SrcProduct) (limit : Nat) (lastId : Option Nat) :
    List SrcProduct :=
  (match lastId with
   | none => coll
   | some i => coll.filter (fun p => i < p.oid)).take limit

/-- One persisted progress write of `update_migration_job`: the cumulative
migrated count and the cursor of the page just finished. -/
structure Checkpoint where
  migrated_products : Nat
  last_processed_id : Option Nat
deriving DecidableEq, Repr

/-- The observable outcome of `_migrate_collection`: the successive source
pages fetched, the checkpoint persisted after each page, and the final
counters and target store. -/
structure CollectionRun where
  pages : List (List SrcProduct)
  checkpoints : List Checkpoint
  migrated : Nat
  duplicates : Nat
  store : List TDoc
deriving DecidableEq, Repr

/-- The page loop of `ProductMigrator._migrate_collection`: fetch a page
after the current cursor, bulk-insert it, advance the cursor to the page's
last `_id`, and persist `(already_migrated + migrated_count, last_id)`
through `update_migration_job`; stop on an empty page.  `fuel` bounds the
number of pages and is irrelevant once it reaches the collection size. -/
def migrateCollectionAux (batchLimit : Nat) (collName : String) (coll : List SrcProduct)
    (already : Nat) : Nat → List TDoc → Nat → Nat → Option Nat → CollectionRun
  | 0, store, migrated, dups, _ => ⟨[], [], migrated, dups, store⟩
  | Nat.succ fuel, store, migrated, dups, lastId =>
    match get_products_batch coll batchLimit lastId with
    | [] => ⟨[], [], migrated, dups, store⟩
    | p :: ps =>
      let r := insert_products_batch store (p :: ps) collName
      let migrated2 := migrated + r.inserted
      let dups2 := dups + r.duplicates
      let newLast := some ((p :: ps).getLast (List.cons_ne_nil p ps)).oid
      let rest := migrateCollectionAux batchLimit collName coll already
        fuel r.store migrated2 dups2 newLast
      ⟨(p :: ps) :: rest.pages, ⟨already + migrated2, newLast⟩ :: rest.checkpoints,
       rest.migrated, rest.duplicates, rest.store⟩

/-- Embedded from `ProductMigrator._migrate_collection`: the local cursor
starts at `None`, so a collection scan always begins at the start of the
collection. -/
def migrate_collection (fuel batchLimit : Nat) (collName : String) (coll : List SrcProduct)
    (already : Nat) (store : List TDoc) : CollectionRun :=
  migrateCollectionAux batchLimit collName coll already fuel store 0 0 none

/-- Embedded from `ProductMigrator._run_migration_all_collections`: iterate
the collections in order, skipping empty ones, threading the total migrated
count (`total_migrated` starts at 0) and the target store. -/
def runAllCollections (fuel batchLimit : Nat) :
    List (String × List SrcProduct) → Nat → List TDoc →
      List CollectionRun × Nat × List TDoc
  | [], totalMigrated, store => ([], totalMigrated, store)
  | (cname, coll) :: restSrc, totalMigrated, store =>
    if coll.length == 0 then runAllCollections fuel batchLimit restSrc totalMigrated store
    else
      let cr := migrate_collection fuel batchLimit cname coll totalMigrated store
      let r := runAllCollections fuel batchLimit restSrc (totalMigrated + cr.migrated) cr.store
      (cr :: r.1, r.2.1, r.2.2)

/-- The migration job document of `TargetMongoStore.create_migration_job` /
`update_migration_job`. -/
structure MigrationJob where
  job_id : String
  status : String
  total_products : Nat
  migrated_products : Nat
  last_processed_id : Option Nat
deriving DecidableEq, Repr

/-- Embedded from `ProductMigrator.resume_migration`: a completed job
returns immediately; otherwise the job is set back to `running` and
`_run_migration_all_collections` is started over the full source, with
`total_migrated = 0` and every collection scan starting from its beginning
(the persisted `last_processed_id` of the job is never read). -/
def resume_migration (fuel batchLimit : Nat) (job : MigrationJob)
    (source : List (String × List SrcProduct)) (store : List TDoc) :
    Option (List CollectionRun × Nat × List TDoc) :=
  if job.status == "completed" then none
  else some (runAllCollections fuel batchLimit source 0 store)

/-- Total record count of the source, as computed by `count_all_products`. -/
def sourceCount (source : List (String × List SrcProduct)) : Nat :=
  (source.map (fun pr => pr.2.length)).sum

/-- Total duplicate count reported across a run's batches. -/
def totalDuplicates (runs : List CollectionRun) : Nat :=
  (runs.map (fun r => r.duplicates)).sum

/-! ### Lemmas about `findOneAndUpdate` and `claimLoop` -/

theorem findOneAndUpdate_length (p : Doc → Bool) (u : Doc → Doc) (s : List Doc) :
    (findOneAndUpdate p u s).2.length = s.length := by
  induction s with
  | nil => rfl
  | cons a as ih =>
    by_cases hp : p a = true
    · simp [findOneAndUpdate, hp]
    · simp [findOneAndUpdate, hp, ih]

theorem findOneAndUpdate_fst_some (p : Doc → Bool) (u : Doc → Doc) (s : List Doc) (d : Doc)
    (h : (findOneAndUpdate p u s).1 = some d) :
    ∃ d₀ ∈ s, p d₀ = true ∧ d = u d₀ := by
  induction s with
  | nil => simp [findOneAndUpdate] at h
  | cons a as ih =>
    by_cases hp : p a = true
    · refine ⟨a, List.mem_cons_self a as, hp, ?_⟩
      simp [findOneAndUpdate, hp] at h
      exact h.symm
    · simp only [findOneAndUpdate, hp, if_false, Bool.false_eq_true] at h
      obtain ⟨d₀, hmem, hpd, hud⟩ := ih h
      exact ⟨d₀, List.mem_cons_of_mem a hmem, hpd, hud⟩

theorem findOneAndUpdate_getD (p : Doc → Bool) (u : Doc → Doc) (s : List Doc) (j : Nat) :
    (findOneAndUpdate p u s).2.getD j dfltDoc = s.getD j dfltDoc ∨
      (p (s.getD j dfltDoc) = true ∧
        (findOneAndUpdate p u s).2.getD j dfltDoc = u (s.getD j dfltDoc)) := by
  induction s generalizing j with
  | nil => left; simp [findOneAndUpdate]
  | cons a as ih =>
    by_cases hp : p a = true
    · cases j with
      | zero => right; exact ⟨by simpa using hp, by simp [findOneAndUpdate, hp]⟩
      | succ m => left; simp [findOneAndUpdate, hp]
    · cases j with
      | zero => left; simp [findOneAndUpdate, hp]
      | succ m => simpa [findOneAndUpdate, hp] using ih m

theorem findOneAndUpdate_mem (p : Doc → Bool) (u : Doc → Doc) (s : List Doc) (d : Doc)
    (h : d ∈ (findOneAndUpdate p u s).2) :
    d ∈ s ∨ ∃ d₀ ∈ s, p d₀ = true ∧ d = u d₀ := by
  induction s with
  | nil => simp [findOneAndUpdate] at h
  | cons a as ih =>
    by_cases hp : p a = true
    · simp only [findOneAndUpdate, hp, if_true] at h
      rcases List.mem_cons.mp h with h1 | h2
      · exact Or.inr ⟨a, List.mem_cons_self a as, hp, h1⟩
      · exact Or.inl (List.mem_cons_of_mem a h2)
    · simp only [findOneAndUpdate, hp, if_false, Bool.false_eq_true] at h
      rcases List.mem_cons.mp h with h1 | h2
      · exact Or.inl (h1 ▸ List.mem_cons_self a as)
      · rcases ih h2 with h3 | ⟨d₀, hmem, hpd, hud⟩
        · exact Or.inl (List.mem_cons_of_mem a h3)
        · exact Or.inr ⟨d₀, List.mem_cons_of_mem a hmem, hpd, hud⟩

theorem claimLoop_length (p : Doc → Bool) (u : Doc → Doc) (n : Nat) (s : List Doc) :
    (claimLoop p u n s).2.length = s.length := by
  induction n generalizing s with
  | zero => rfl
  | succ n ih =>
    have hl := findOneAndUpdate_length p u s
    rcases hf : findOneAndUpdate p u s with ⟨o, s₁⟩
    rw [hf] at hl
    cases o with
    | none => simp only [claimLoop, hf]; exact hl
    | some d =>
      simp only [claimLoop, hf]
      exact (ih s₁).trans hl

theorem claimLoop_ret (p : Doc → Bool) (u : Doc → Doc) (n : Nat) (s : List Doc) (d : Doc)
    (h : d ∈ (claimLoop p u n s).1) :
    ∃ d₀, p d₀ = true ∧ d = u d₀ := by
  induction n generalizing s with
  | zero => simp [claimLoop] at h
  | succ n ih =>
    rcases hf : findOneAndUpdate p u s with ⟨o, s₁⟩
    cases o with
    | none => rw [claimLoop, hf] at h; simp at h
    | some d₁ =>
      rw [claimLoop, hf] at h
      rcases List.mem_cons.mp h with h1 | h2
      · have : (findOneAndUpdate p u s).1 = some d₁ := by rw [hf]
        obtain ⟨d₀, _, hpd, hud⟩ := findOneAndUpdate_fst_some p u s d₁ this
        exact ⟨d₀, hpd, h1 ▸ hud⟩
      · exact ih s₁ h2

theorem claimLoop_stable (p : Doc → Bool) (u : Doc → Doc) (n : Nat) (s : List Doc) (j : Nat)
    (h : p (s.getD j dfltDoc) = false) :
    (claimLoop p u n s).2.getD j dfltDoc = s.getD j dfltDoc := by
  induction n generalizing s with
  | zero => rfl
  | succ n ih =>
    have hd := findOneAndUpdate_getD p u s j
    rcases hf : findOneAndUpdate p u s with ⟨o, s₁⟩
    rw [hf] at hd
    have hstep : s₁.getD j dfltDoc = s.getD j dfltDoc := by
      rcases hd with h1 | ⟨h2, _⟩
      · exact h1
      · rw [h] at h2; exact absurd h2 (by simp)
    cases o with
    | none => simp only [claimLoop, hf]; exact hstep
    | some d =>
      simp only [claimLoop, hf]
      have h2 : p (s₁.getD j dfltDoc) = false := by rw [hstep]; exact h
      exact (ih s₁ h2).trans hstep

theorem claimLoop_pres (p : Doc → Bool) (u : Doc → Doc) (Q : Doc → Prop)
    (hu : ∀ d, Q d → Q (u d)) (n : Nat) (s : List Doc) (hs : ∀ d ∈ s, Q d) :
    ∀ d ∈ (claimLoop p u n s).2, Q d := by
  induction n generalizing s with
  | zero => exact hs
  | succ n ih =>
    rcases hf : findOneAndUpdate p u s with ⟨o, s₁⟩
    have hs₁ : ∀ d ∈ s₁, Q d := by
      intro d hd
      have : d ∈ (findOneAndUpdate p u s).2 := by rw [hf]; exact hd
      rcases findOneAndUpdate_mem p u s d this with h1 | ⟨d₀, hmem, _, hud⟩
      · exact hs d h1
      · exact hud ▸ hu d₀ (hs d₀ hmem)
    cases o with
    | none => simp only [claimLoop, hf]; exact hs₁
    | some d => simp only [claimLoop, hf]; exact ih s₁ hs₁

/-! ### Claim C1: atomic claiming with exclusive ownership -/

/-- C1: every record returned by a claim operation was transitioned from
`pending` to `processing` by the single conditional update that also sets
the claiming worker's id and the claim timestamp; records already in
`processing` (for the respective stage) are never touched by further claim
calls, so at most one worker holds a record's claim; and the claim
operations preserve the invariant that a `processing` record has a non-null
owner and claim timestamp. -/
theorem claim_C1_atomic_claim_ownership (store : List Doc) (limit : Nat) (wid : String)
    (now : Nat) (cls : String) :
    (∀ d ∈ (get_pending_products_atomic limit (some wid) now store).1,
        d.status_stage1 = .processing ∧ d.worker_id = some wid ∧
          d.processing_started_at = some now ∧
          ∃ d₀, d₀.status_stage1 = .pending ∧ d = stage1ClaimUpdate (some wid) now d₀) ∧
    (∀ d ∈ (get_pending_products_for_class cls limit wid now store).1,
        d.status_stg2 = some .processing ∧ d.stage2_worker_id = some wid ∧
          d.stage2_started_at = some now) ∧
    (∀ j : Nat, (store.getD j dfltDoc).status_stage1 = .processing →
        (get_pending_products_atomic limit (some wid) now store).2.getD j dfltDoc
          = store.getD j dfltDoc) ∧
    (∀ j : Nat, (store.getD j dfltDoc).status_stg2 = some .processing →
        (get_pending_products_for_class cls limit wid now store).2.getD j dfltDoc
          = store.getD j dfltDoc) ∧
    (ClaimInv store →
      ClaimInv (get_pending_products_atomic limit (some wid) now store).2 ∧
        ClaimInv (get_pending_products_for_class cls limit wid now store).2) := by
  refine ⟨?_, ?_, ?_, ?_, ?_⟩
  · intro d hd
    obtain ⟨d₀, hp, hu⟩ := claimLoop_ret _ _ limit store d hd
    have hpend : d₀.status_stage1 = .pending := by
      simpa [stage1ClaimFilter] using hp
    subst hu
    exact ⟨rfl, rfl, rfl, d₀, hpend, rfl⟩
  · intro d hd
    obtain ⟨d₀, _, hu⟩ := claimLoop_ret _ _ limit store d hd
    subst hu
    exact ⟨rfl, rfl, rfl⟩
  · intro j hj
    apply claimLoop_stable
    unfold stage1ClaimFilter
    rw [hj]
    rfl
  · intro j hj
    apply claimLoop_stable
    unfold stage2ClaimFilter
    rw [hj]
    simp
  · intro hInv
    constructor
    · intro d hd
      refine claimLoop_pres _ _ ClaimInvPred ?_ limit store hInv d hd
      intro d hq
      refine ⟨fun _ => ⟨?_, ?_⟩, fun h2 => ?_⟩
      · simp [stage1ClaimUpdate]
      · simp [stage1ClaimUpdate]
      · have h2' : d.status_stg2 = some .processing := by
          simpa [stage1ClaimUpdate] using h2
        have := hq.2 h2'
        simpa [stage1ClaimUpdate] using this
    · intro d hd
      refine claimLoop_pres _ _ ClaimInvPred ?_ limit store hInv d hd
      intro d hq
      refine ⟨fun h1 => ?_, fun _ => ⟨?_, ?_⟩⟩
      · have h1' : d.status_stage1 = .processing := by
          simpa [stage2ClaimUpdate] using h1
        have := hq.1 h1'
        simpa [stage2ClaimUpdate] using this
      · simp [stage2ClaimUpdate]
      · simp [stage2ClaimUpdate]

def c1Doc0 : Doc := ⟨1, .pending, none, none, none, none, none, none, none, none⟩

def c1Doc1 : Doc := ⟨2, .processing, some "w0", some 1, none, none, none, none, none, none⟩

def c1Store : List Doc := [c1Doc0, c1Doc1]

def c1Claimed : Doc := ⟨1, .processing, some "w1", some 7, none, none, none, none, none, none⟩

/-- Witness for C1 at a concrete two-document store: the pending document is
claimed with owner and timestamp set, the document already claimed by
worker `w0` is untouched, and the invariant is preserved. -/
theorem claim_C1_witness :
    (c1Claimed ∈ (get_pending_products_atomic 2 (some "w1") 7 c1Store).1) ∧
    (c1Claimed.status_stage1 = .processing ∧ c1Claimed.worker_id = some "w1" ∧
      c1Claimed.processing_started_at = some 7 ∧
      ∃ d₀, d₀.status_stage1 = .pending ∧ c1Claimed = stage1ClaimUpdate (some "w1") 7 d₀) ∧
    ((get_pending_products_atomic 2 (some "w1") 7 c1Store).2.getD 1 dfltDoc
        = c1Store.getD 1 dfltDoc) ∧
    ClaimInv (get_pending_products_atomic 2 (some "w1") 7 c1Store).2 :=
  ⟨by decide,
   (claim_C1_atomic_claim_ownership c1Store 2 "w1" 7 "10").1 c1Claimed (by decide),
   (claim_C1_atomic_claim_ownership c1Store 2 "w1" 7 "10").2.2.1 1 (by decide),
   ((claim_C1_atomic_claim_ownership c1Store 2 "w1" 7 "10").2.2.2.2 (by decide)).1⟩

/-! ### Claim C7: Stage-2 claim eligibility -/

/-- C7: every record a Stage-2 claim returns carries a `classified` Stage-1
result with a non-empty group list whose first-matching element lies under
the requested class; in particular a record whose Stage-1 status field read
by the claim is `none_classified` is never returned. -/
theorem claim_C7_stage2_claim_eligibility (store : List Doc) (cls wid : String)
    (limit now : Nat) :
    ∀ d ∈ (get_pending_products_for_class cls limit wid now store).1,
      d.status_stg1 = some .classified ∧
        d.status_stg1 ≠ some .none_classified ∧
        ∃ gs, d.okpd_group = some gs ∧ gs ≠ [] ∧
          ∃ g ∈ gs, ((cls ++ ".").data.isPrefixOf g.data) = true := by
  intro d hd
  obtain ⟨d₀, hp, hu⟩ := claimLoop_ret _ _ limit store d hd
  subst hu
  cases hg : d₀.okpd_group with
  | none => simp [stage2ClaimFilter, hg] at hp
  | some gs =>
    simp only [stage2ClaimFilter, hg, Bool.and_eq_true, beq_iff_eq] at hp
    obtain ⟨⟨h1, h2⟩, _⟩ := hp
    obtain ⟨g, hgmem, hgp⟩ := List.any_eq_true.mp h2
    have hnil : gs ≠ [] := by
      intro hempty
      subst hempty
      simp at hgmem
    refine ⟨?_, ?_, gs, ?_, hnil, g, hgmem, hgp⟩
    · simpa [stage2ClaimUpdate] using h1
    · have : (stage2ClaimUpdate wid now d₀).status_stg1 = some .classified := by
        simpa [stage2ClaimUpdate] using h1
      rw [this]
      simp
    · simpa [stage2ClaimUpdate] using hg

def c7Doc0 : Doc :=
  ⟨1, .pending, none, none, none, some .classified, some ["10.71.1"], none, none, none⟩

def c7Doc1 : Doc :=
  ⟨2, .pending, none, none, none, some .none_classified, some ["10.71.1"], none, none, none⟩

def c7Store : List Doc := [c7Doc0, c7Doc1]

def c7Claimed : Doc :=
  ⟨1, .pending, none, none, none, some .classified, some ["10.71.1"],
   some .processing, some "w2", some 9⟩

/-- Witness for C7 at a concrete store holding one classified and one
none_classified record: the claim returns exactly the classified one. -/
theorem claim_C7_witness :
    (c7Claimed ∈ (get_pending_products_for_class "10" 5 "w2" 9 c7Store).1) ∧
    (c7Claimed.status_stg1 = some .classified ∧
      c7Claimed.status_stg1 ≠ some .none_classified ∧
      ∃ gs, c7Claimed.okpd_group = some gs ∧ gs ≠ [] ∧
        ∃ g ∈ gs, (("10" ++ ".").data.isPrefixOf g.data) = true) :=
  ⟨by decide,
   claim_C7_stage2_claim_eligibility c7Store "10" "w2" 5 9 c7Claimed (by decide)⟩

/-! ### Claim C5: the stuck-record sweep -/

/-- C5 counterexample: no periodically running loop of the repository ever
performs the stuck-record reset; `cleanup_stuck_products` is reachable only
through the operator-triggered POST `/workers/cleanup-stuck` endpoint, so
the sweep does not run "periodically without operator action". -/
theorem claim_C5_counterexample : StoreOp.cleanupStuck ∉ periodicLoopOps := by
  decide

/-- C5 as amended: the stuck-record reset exists only as the
operator-triggered cleanup endpoint; when invoked, it resets exactly the
records whose claim timestamp is older than the cutoff from `processing`
back to `pending`, clearing owner and timestamp, and leaves every other
record unchanged; afterwards no stuck record remains. -/
theorem claim_C5_amended (cutoff : Nat) (store : List Doc) :
    (∀ d ∈ cleanup_stuck_products cutoff store, isStuck cutoff d = false) ∧
    (∀ j : Nat, j < store.length →
      (isStuck cutoff (store.getD j dfltDoc) = true →
        (cleanup_stuck_products cutoff store).getD j dfltDoc
          = stuckReset (store.getD j dfltDoc)) ∧
      (isStuck cutoff (store.getD j dfltDoc) = false →
        (cleanup_stuck_products cutoff store).getD j dfltDoc = store.getD j dfltDoc)) := by
  constructor
  · intro d hd
    obtain ⟨a, _, ha⟩ := List.mem_map.mp hd
    by_cases hs : isStuck cutoff a = true
    · rw [← ha]
      simp only [hs, if_true]
      simp [isStuck, stuckReset]
    · rw [← ha]
      simp only [hs, if_false]
      simpa using hs
  · intro j hj
    have hmap : (cleanup_stuck_products cutoff store).getD j dfltDoc
        = (if isStuck cutoff (store.getD j dfltDoc) then
            stuckReset (store.getD j dfltDoc)
           else store.getD j dfltDoc) := by
      unfold cleanup_stuck_products
      rw [List.getD_eq_getElem?_getD, List.getElem?_map,
        List.getElem?_eq_getElem hj, List.getD_eq_getElem?_getD,
        List.getElem?_eq_getElem hj]
      rfl
    constructor
    · intro hs
      rw [hmap, hs]
      rfl
    · intro hs
      rw [hmap, hs]
      rfl

def c5Doc : Doc := ⟨9, .pending, some "w", some 3, none, some .processing, none, none, none, none⟩

/-- Witness for the amended C5 at a concrete stuck record with a claim
timestamp of 3 and a cutoff of 100. -/
theorem claim_C5_witness :
    (cleanup_stuck_products 100 [c5Doc]).getD 0 dfltDoc
      = stuckReset (([c5Doc] : List Doc).getD 0 dfltDoc) :=
  ((claim_C5_amended 100 [c5Doc]).2 0 (by decide)).1 (by decide)

/-! ### Claim C3: the Widget A / Widget B scenario -/

def c3Products : List BatchItem := [⟨"idA", "Widget A"⟩, ⟨"idB", "Widget B"⟩]

def c3Map : List (String × String) := buildProductMap c3Products

/-- C3 counterexample: for the response `"Widget A|10|25"` the code tokens
`"10"` and `"25"` fail the `^\d{2}\.\d{2}\.\d$` validation, so the parsed
results are empty and "Widget A" is marked `none_classified`, not
`classified` with `["10","25"]`. -/
theorem claim_C3_counterexample :
    parse_classification_response "Widget A|10|25" c3Map = [] ∧
    updateProductsWithResults "w1" c3Products
        (parse_classification_response "Widget A|10|25" c3Map)
      = [⟨"idA", .none_classified, none, "w1"⟩, ⟨"idB", .none_classified, none, "w1"⟩] ∧
    PStatus.none_classified ≠ PStatus.classified := by
  refine ⟨by decide, by decide, by decide⟩

/-- C3 as amended: with the response `"Widget A|10|25"` both batch items are
marked `none_classified` (the tokens fail the coarse-code format); with
format-valid codes, e.g. response `"Widget A|10.71.1|25.30.1"`, "Widget A"
is marked `classified` with `okpd_groups = ["10.71.1","25.30.1"]` and
"Widget B", absent from the response, is marked `none_classified`. -/
theorem claim_C3_amended :
    updateProductsWithResults "w1" c3Products
        (parse_classification_response "Widget A|10|25" c3Map)
      = [⟨"idA", .none_classified, none, "w1"⟩, ⟨"idB", .none_classified, none, "w1"⟩] ∧
    updateProductsWithResults "w1" c3Products
        (parse_classification_response "Widget A|10.71.1|25.30.1" c3Map)
      = [⟨"idA", .classified, some ["10.71.1", "25.30.1"], "w1"⟩,
         ⟨"idB", .none_classified, none, "w1"⟩] := by
  refine ⟨by decide, by decide⟩

/-! ### Claim C8 counterexample: the parser keeps duplicate codes -/

def c8Map : List (String × String) := [("Widget A", "idA")]

/-- C8 counterexample: the response line `"Widget A|10.71.1|10.71.1"` is
stored with the code `"10.71.1"` twice; the parser validates and orders the
codes but never de-duplicates them. -/
theorem claim_C8_counterexample :
    parse_classification_response "Widget A|10.71.1|10.71.1" c8Map
      = [("idA", ["10.71.1", "10.71.1"])] ∧
    ¬ (["10.71.1", "10.71.1"] : List String).Nodup := by
  refine ⟨by decide, by decide⟩

/-! ### Claim C9: adaptive batch sizing of the continuous loop -/

/-- C9 counterexample: a failed batch does not always shrink the requested
size; the very first timeout failure (and any non-timeout failure) leaves
`current_batch_size` unchanged: with ceiling 300 and current size 300 the
size after one timeout is still 300, not `max 10 (300 / 2) = 150`. -/
theorem claim_C9_counterexample :
    (run_continuous_step 300 ⟨300, 0⟩ .timeoutError).currentBatchSize = 300 ∧
    (run_continuous_step 300 ⟨300, 0⟩ .otherError).currentBatchSize = 300 ∧
    (300 : Nat) ≠ max 10 (300 / 2) := by
  refine ⟨by decide, by decide, by decide⟩

/-- C9 as amended: after a successful batch the requested size doubles,
capped at the configured ceiling, and stays constant once at or above it;
a timeout failure halves the size with a hard floor of 10, but only from
the second consecutive timeout on; the first timeout in a run and every
non-timeout failure leave the size unchanged; consequently, under any run
of consecutive failed batches starting at a size of at least 10, the size
sequence is non-increasing and bounded below by 10. -/
theorem claim_C9_amended :
    (∀ ceiling : Nat, ∀ s : LoopState, s.currentBatchSize < ceiling →
      (run_continuous_step ceiling s .processed).currentBatchSize
        = min (s.currentBatchSize * 2) ceiling) ∧
    (∀ ceiling : Nat, ∀ s : LoopState, ceiling ≤ s.currentBatchSize →
      (run_continuous_step ceiling s .processed).currentBatchSize = s.currentBatchSize) ∧
    (∀ ceiling : Nat, ∀ s : LoopState, 1 ≤ s.consecutiveTimeouts →
      (run_continuous_step ceiling s .timeoutError).currentBatchSize
        = max 10 (s.currentBatchSize / 2)) ∧
    (∀ ceiling : Nat, ∀ s : LoopState, s.consecutiveTimeouts = 0 →
      (run_continuous_step ceiling s .timeoutError).currentBatchSize
        = s.currentBatchSize) ∧
    (∀ ceiling : Nat, ∀ s : LoopState, ∀ e : LoopEvent,
      (e = LoopEvent.timeoutError ∨ e = LoopEvent.otherError) →
      10 ≤ s.currentBatchSize →
      (run_continuous_step ceiling s e).currentBatchSize ≤ s.currentBatchSize ∧
        10 ≤ (run_continuous_step ceiling s e).currentBatchSize) ∧
    (∀ ceiling : Nat, ∀ s : LoopState, ∀ events : List LoopEvent,
      (∀ e ∈ events, e = LoopEvent.timeoutError ∨ e = LoopEvent.otherError) →
      10 ≤ s.currentBatchSize →
      (events.foldl (run_continuous_step ceiling) s).currentBatchSize
          ≤ s.currentBatchSize ∧
        10 ≤ (events.foldl (run_continuous_step ceiling) s).currentBatchSize) := by
  have step : ∀ ceiling : Nat, ∀ s : LoopState, ∀ e : LoopEvent,
      (e = LoopEvent.timeoutError ∨ e = LoopEvent.otherError) →
      10 ≤ s.currentBatchSize →
      (run_continuous_step ceiling s e).currentBatchSize ≤ s.currentBatchSize ∧
        10 ≤ (run_continuous_step ceiling s e).currentBatchSize := by
    intro ceiling s e he h10
    rcases he with he | he <;> subst he
    · simp only [run_continuous_step]
      by_cases h2 : 2 ≤ s.consecutiveTimeouts + 1
      · simp only [h2, if_true]
        constructor
        · exact max_le h10 (Nat.le_trans (Nat.div_le_self _ _) (le_refl _))
        · exact le_max_left _ _
      · simp only [h2, if_false]
        exact ⟨le_refl _, h10⟩
    · exact ⟨le_refl _, h10⟩
  refine ⟨?_, ?_, ?_, ?_, step, ?_⟩
  · intro ceiling s h
    simp [run_continuous_step, h]
  · intro ceiling s h
    simp [run_continuous_step, Nat.not_lt.mpr h]
  · intro ceiling s h
    have h2 : 2 ≤ s.consecutiveTimeouts + 1 := by omega
    simp [run_continuous_step, h2]
  · intro ceiling s h
    simp [run_continuous_step, h]
  · intro ceiling s events
    induction events generalizing s with
    | nil => intro _ h10; exact ⟨le_refl _, h10⟩
    | cons e es ih =>
      intro hall h10
      have hstep := step ceiling s e (hall e (List.mem_cons_self e es)) h10
      have hrest := ih (run_continuous_step ceiling s e)
        (fun x hx => hall x (List.mem_cons_of_mem e hx)) hstep.2
      exact ⟨le_trans hrest.1 hstep.1, hrest.2⟩

/-- Witness for the amended C9: growth at size 20 under ceiling 300, shrink
on the second consecutive timeout at size 40, and the non-increasing floor
bound over three consecutive failures starting at 300. -/
theorem claim_C9_witness :
    (run_continuous_step 300 ⟨20, 0⟩ .processed).currentBatchSize = min (20 * 2) 300 ∧
    (run_continuous_step 300 ⟨40, 1⟩ .timeoutError).currentBatchSize = max 10 (40 / 2) ∧
    (([LoopEvent.timeoutError, LoopEvent.timeoutError, LoopEvent.otherError].foldl
        (run_continuous_step 300) ⟨300, 0⟩).currentBatchSize ≤ 300 ∧
      10 ≤ ([LoopEvent.timeoutError, LoopEvent.timeoutError, LoopEvent.otherError].foldl
        (run_continuous_step 300) ⟨300, 0⟩).currentBatchSize) :=
  ⟨claim_C9_amended.1 300 ⟨20, 0⟩ (by decide),
   claim_C9_amended.2.2.1 300 ⟨40, 1⟩ (by decide),
   claim_C9_amended.2.2.2.2.2 300 ⟨300, 0⟩
     [LoopEvent.timeoutError, LoopEvent.timeoutError, LoopEvent.otherError]
     (by decide) (by decide)⟩

/-! ### Claim C2: exhausted retries and the `failed` marking -/

def overloadEvery : Nat → Attempt := fun _ => Attempt.err .overload

/-- C2, evaluated at the failing input: with `MAX_RETRIES = 3` and every
external call raising an overloaded (529) error, the 529 branch accepts a
retry (`retry_count < max_retries + 2`) but the `while retry_count <
max_retries` condition then fails, so `process_batch` falls off the end of
the loop: it returns `None`, raises nothing, and marks no product `failed` —
the whole batch is left in `processing`, contradicting the claim that every
item of the batch is marked `failed` before the error propagates. -/
theorem claim_C2_code_bug :
    process_batch 10 3 overloadEvery ["p1", "p2"] 0
      = ⟨.noneReturn, [], [], 3⟩ ∧
    (⟨.noneReturn, [], [], 3⟩ : ProcTrace).markedFailed ≠ ["p1", "p2"] := by
  refine ⟨by decide, by decide⟩

/-! ### Claims C8 and C10: shape of the stored group lists -/

theorem dictInsert_mem {α : Type} (m : List (String × α)) (k : String) (v : α)
    (e : String × α) (he : e ∈ dictInsert m k v) : e ∈ m ∨ e = (k, v) := by
  unfold dictInsert at he
  by_cases hk : m.any (fun p => p.1 == k) = true
  · simp only [hk, if_true] at he
    obtain ⟨a, ham, hae⟩ := List.mem_map.mp he
    by_cases h : a.1 == k
    · right; rw [← hae]; simp [h]
    · left; rw [← hae]; simp only [h, if_false, Bool.false_eq_true]; exact ham
  · simp only [hk, if_false, Bool.false_eq_true] at he
    rcases List.mem_append.mp he with h | h
    · left; exact h
    · right; simpa using h

theorem parseLine_entries (productMap : List (String × String))
    (results : List (String × List String)) (line : String) :
    ∀ e ∈ parseLine productMap results line,
      e ∈ results ∨ (e.2 = extractGroups (splitStr '|' line) ∧ e.2 ≠ []) := by
  intro e he
  unfold parseLine at he
  by_cases hlen : (splitStr '|' line).length < 2
  · simp only [hlen, if_true] at he
    exact Or.inl he
  · simp only [hlen, if_false] at he
    cases hf : findProductId productMap (trimStr ((splitStr '|' line).headD "")) with
    | none => rw [hf] at he; exact Or.inl he
    | some pid =>
      rw [hf] at he
      by_cases hg : (extractGroups (splitStr '|' line)).isEmpty = true
      · simp only [hg, if_true] at he
        exact Or.inl he
      · simp only [hg, if_false, Bool.false_eq_true] at he
        rcases dictInsert_mem results pid (extractGroups (splitStr '|' line)) e he with h | h
        · exact Or.inl h
        · refine Or.inr ⟨by rw [h], ?_⟩
          rw [h]
          simpa [List.isEmpty_iff] using hg

theorem parse_entries_aux (productMap : List (String × String)) (lines : List String)
    (acc : List (String × List String)) (e : String × List String)
    (he : e ∈ lines.foldl (parseLine productMap) acc) :
    e ∈ acc ∨ ∃ line ∈ lines, e.2 = extractGroups (splitStr '|' line) ∧ e.2 ≠ [] := by
  induction lines generalizing acc with
  | nil => exact Or.inl he
  | cons l ls ih =>
    rcases ih (parseLine productMap acc l) he with h | ⟨line, hline, hg⟩
    · rcases parseLine_entries productMap acc l e h with h1 | h2
      · exact Or.inl h1
      · exact Or.inr ⟨l, List.mem_cons_self l ls, h2⟩
    · exact Or.inr ⟨line, List.mem_cons_of_mem l hline, hg⟩

/-- Every entry of the parsed results carries the validated group list of one
of the response lines. -/
theorem parse_entry_source (response : String) (productMap : List (String × String))
    (pid : String) (groups : List String)
    (h : (pid, groups) ∈ parse_classification_response response productMap) :
    ∃ line ∈ splitStr '\n' (trimStr response),
      groups = extractGroups (splitStr '|' line) ∧ groups ≠ [] := by
  unfold parse_classification_response at h
  rcases parse_entries_aux productMap _ [] _ h with h0 | ⟨line, hl, hg, hne⟩
  · simp at h0
  · exact ⟨line, hl, hg, hne⟩

/-- C8 as amended: every stored group list is non-empty, contains only
format-valid codes, and is the order-preserving subsequence of the first
five stripped code tokens of its response line that survive validation —
but the parser performs no de-duplication, so duplicate codes in the
response are stored repeatedly. -/
theorem claim_C8_amended (response : String) (productMap : List (String × String))
    (pid : String) (groups : List String)
    (h : (pid, groups) ∈ parse_classification_response response productMap) :
    groups ≠ [] ∧ (∀ g ∈ groups, isValidOkpd2 g = true) ∧
      ∃ line ∈ splitStr '\n' (trimStr response),
        groups = extractGroups (splitStr '|' line) ∧
          groups.Sublist ((((splitStr '|' line).drop 1).take 5).map trimStr) := by
  obtain ⟨line, hl, hg, hne⟩ := parse_entry_source response productMap pid groups h
  refine ⟨hne, ?_, line, hl, hg, ?_⟩
  · intro g hgm
    rw [hg] at hgm
    exact List.of_mem_filter hgm
  · rw [hg]
    exact List.filter_sublist _

/-- Witness for the amended C8 at the duplicated-code response. -/
theorem claim_C8_witness :
    (["10.71.1", "10.71.1"] : List String) ≠ [] ∧
    (∀ g ∈ (["10.71.1", "10.71.1"] : List String), isValidOkpd2 g = true) ∧
    ∃ line ∈ splitStr '\n' (trimStr "Widget A|10.71.1|10.71.1"),
      (["10.71.1", "10.71.1"] : List String) = extractGroups (splitStr '|' line) ∧
        (["10.71.1", "10.71.1"] : List String).Sublist
          ((((splitStr '|' line).drop 1).take 5).map trimStr) :=
  claim_C8_amended "Widget A|10.71.1|10.71.1" c8Map "idA" ["10.71.1", "10.71.1"] (by decide)

/-- C10: a stored group list never holds more than five codes, because only
the code tokens `parts[1:6]` of a matched line are considered; tokens past
the sixth field of a line are ignored entirely. -/
theorem claim_C10_top_five_codes :
    (∀ (response : String) (productMap : List (String × String)) (pid : String)
        (groups : List String),
      (pid, groups) ∈ parse_classification_response response productMap →
        groups.length ≤ 5) ∧
    (∀ parts : List String, extractGroups parts = extractGroups (parts.take 6)) := by
  constructor
  · intro response productMap pid groups h
    obtain ⟨line, _, hg, _⟩ := parse_entry_source response productMap pid groups h
    rw [hg]
    have h1 : (extractGroups (splitStr '|' line)).length
        ≤ ((((splitStr '|' line).drop 1).take 5).map trimStr).length :=
      (List.filter_sublist _).length_le
    refine le_trans h1 ?_
    simp only [List.length_map, List.length_take]
    exact Nat.min_le_left _ _
  · intro parts
    unfold extractGroups
    have h6 : (parts.take 6).drop 1 = (parts.drop 1).take 5 := by
      rw [List.drop_take]
    rw [h6, List.take_take]
    norm_num

/-- Witness for C10: a line with seven code tokens stores exactly the first
five. -/
theorem claim_C10_witness :
    (["10.71.1", "11.11.1", "12.12.1", "13.13.1", "14.14.1"] : List String).length ≤ 5 :=
  claim_C10_top_five_codes.1
    "Widget A|10.71.1|11.11.1|12.12.1|13.13.1|14.14.1|15.15.1|16.16.1" c8Map "idA"
    ["10.71.1", "11.11.1", "12.12.1", "13.13.1", "14.14.1"] (by decide)

/-! ### Lemmas about the migration insert and pagination -/

theorem hasSourceKey_append (store ext : List TDoc) (sid : Nat) (coll : String)
    (h : hasSourceKey store sid coll = true) :
    hasSourceKey (store ++ ext) sid coll = true := by
  unfold hasSourceKey at h ⊢
  rw [List.any_append, h]
  rfl

theorem insert_store_eq_append (store : List TDoc) (products : List SrcProduct)
    (collName : String) :
    ∃ ext, (insert_products_batch store products collName).store = store ++ ext := by
  induction products generalizing store with
  | nil => exact ⟨[], by simp [insert_products_batch]⟩
  | cons p ps ih =>
    by_cases h : hasSourceKey store p.oid collName = true
    · obtain ⟨ext, he⟩ := ih store
      exact ⟨ext, by simp [insert_products_batch, h, he]⟩
    · obtain ⟨ext, he⟩ := ih (store ++ [⟨p.title, collName, p.oid, .pending⟩])
      refine ⟨⟨p.title, collName, p.oid, .pending⟩ :: ext, ?_⟩
      simp [insert_products_batch, h, he]

theorem insert_mono (store : List TDoc) (products : List SrcProduct) (collName : String)
    (sid : Nat) (coll : String) (h : hasSourceKey store sid coll = true) :
    hasSourceKey (insert_products_batch store products collName).store sid coll = true := by
  obtain ⟨ext, he⟩ := insert_store_eq_append store products collName
  rw [he]
  exact hasSourceKey_append store ext sid coll h

theorem insert_covers (store : List TDoc) (products : List SrcProduct) (collName : String) :
    ∀ p ∈ products,
      hasSourceKey (insert_products_batch store products collName).store p.oid collName
        = true := by
  induction products generalizing store with
  | nil => intro p hp; simp at hp
  | cons q ps ih =>
    intro p hp
    by_cases h : hasSourceKey store q.oid collName = true
    · simp only [insert_products_batch, h, if_true]
      rcases List.mem_cons.mp hp with h1 | h2
      · subst h1; exact insert_mono store ps collName p.oid collName h
      · exact ih store p h2
    · simp only [insert_products_batch, h, Bool.false_eq_true, if_false]
      rcases List.mem_cons.mp hp with h1 | h2
      · subst h1
        apply insert_mono
        unfold hasSourceKey
        rw [List.any_append]
        simp
      · exact ih _ p h2

theorem insert_all_dup (store : List TDoc) (products : List SrcProduct) (collName : String)
    (h : ∀ p ∈ products, hasSourceKey store p.oid collName = true) :
    insert_products_batch store products collName = ⟨0, products.length, store⟩ := by
  induction products with
  | nil => rfl
  | cons p ps ih =>
    have hp := h p (List.mem_cons_self p ps)
    simp only [insert_products_batch, hp, if_true]
    rw [ih (fun q hq => h q (List.mem_cons_of_mem p hq))]
    rfl

/-- The records of the source collection still ahead of the pagination
cursor. -/
def remainingAfter (coll : List SrcProduct) : Option Nat → List SrcProduct
  | none => coll
  | some i => coll.filter (fun p => i < p.oid)

theorem get_products_batch_eq (coll : List SrcProduct) (limit : Nat) (lastId : Option Nat) :
    get_products_batch coll limit lastId = (remainingAfter coll lastId).take limit := by
  cases lastId <;> rfl

/-- The source collections are scanned in `_id` order: the embedded cursor
pagination is correct for collections whose records have strictly
increasing ObjectIds, which is what Mongo natural order provides. -/
def SortedSrc (coll : List SrcProduct) : Prop :=
  coll.Pairwise (fun a b => a.oid < b.oid)

instance (coll : List SrcProduct) : Decidable (SortedSrc coll) := by
  unfold SortedSrc; infer_instance

theorem oid_le_getLast (l : List SrcProduct) :
    l.Pairwise (fun a b => a.oid < b.oid) → ∀ (hne : l ≠ []) (x : SrcProduct), x ∈ l →
      x.oid ≤ (l.getLast hne).oid := by
  induction l with
  | nil => intro _ hne; exact absurd rfl hne
  | cons a as ih =>
    intro hs hne x hx
    cases as with
    | nil =>
      rcases List.mem_cons.mp hx with h1 | h2
      · subst h1; exact le_refl _
      · simp at h2
    | cons b bs =>
      have hgl : (a :: b :: bs).getLast hne = (b :: bs).getLast (List.cons_ne_nil b bs) :=
        List.getLast_cons (List.cons_ne_nil b bs)
      rcases List.mem_cons.mp hx with h1 | h2
      · subst h1
        have hmem := List.getLast_mem (List.cons_ne_nil b bs)
        have hlt := (List.pairwise_cons.mp hs).1 _ hmem
        rw [hgl]
        exact le_of_lt hlt
      · rw [hgl]
        exact ih (List.pairwise_cons.mp hs).2 (List.cons_ne_nil b bs) x h2

theorem sortedSrc_remaining (coll : List SrcProduct) (cursor : Option Nat)
    (hs : SortedSrc coll) : SortedSrc (remainingAfter coll cursor) := by
  cases cursor with
  | none => exact hs
  | some i => exact List.Pairwise.sublist (List.filter_sublist coll) hs

/-- After processing the page `p :: ps` (the first `b` remaining records),
advancing the cursor to the page's last `_id` leaves exactly the records
after the page: for sorted collections, the cursor pagination never skips
and never repeats a record. -/
theorem remaining_step (coll : List SrcProduct) (cursor : Option Nat) (b : Nat)
    (hs : SortedSrc coll) (p : SrcProduct) (ps : List SrcProduct)
    (hpage : (remainingAfter coll cursor).take b = p :: ps) :
    remainingAfter coll (some (((p :: ps)).getLast (List.cons_ne_nil p ps)).oid)
      = (remainingAfter coll cursor).drop b := by
  have hrs : SortedSrc (remainingAfter coll cursor) := sortedSrc_remaining coll cursor hs
  have hlastmem : ((p :: ps)).getLast (List.cons_ne_nil p ps) ∈ (p :: ps) :=
    List.getLast_mem (List.cons_ne_nil p ps)
  have hpagemem : ∀ x ∈ (p :: ps), x ∈ remainingAfter coll cursor := by
    intro x hx
    rw [← hpage] at hx
    exact (List.take_sublist b (remainingAfter coll cursor)).subset hx
  have hlastrem : ((p :: ps)).getLast (List.cons_ne_nil p ps) ∈ remainingAfter coll cursor :=
    hpagemem _ hlastmem
  have stepA : remainingAfter coll
        (some (((p :: ps)).getLast (List.cons_ne_nil p ps)).oid)
      = (remainingAfter coll cursor).filter
          (fun x => (((p :: ps)).getLast (List.cons_ne_nil p ps)).oid < x.oid) := by
    cases cursor with
    | none => rfl
    | some i =>
      have hi : i < (((p :: ps)).getLast (List.cons_ne_nil p ps)).oid := by
        have := List.mem_filter.mp hlastrem
        simpa using this.2
      show coll.filter _ = (coll.filter _).filter _
      rw [List.filter_filter]
      apply List.filter_congr
      intro x _
      by_cases hx : (((p :: ps)).getLast (List.cons_ne_nil p ps)).oid < x.oid
      · have : i < x.oid := lt_trans hi hx
        simp [hx, this]
      · simp [hx]
  rw [stepA]
  have hdecomp : remainingAfter coll cursor
      = (p :: ps) ++ (remainingAfter coll cursor).drop b := by
    conv_lhs => rw [← List.take_append_drop b (remainingAfter coll cursor)]
    rw [hpage]
  have hpair := hdecomp ▸ hrs
  obtain ⟨hpage_sorted, _, hcross⟩ := List.pairwise_append.mp hpair
  have hfirst : ((p :: ps)).filter
      (fun x => (((p :: ps)).getLast (List.cons_ne_nil p ps)).oid < x.oid) = [] := by
    rw [List.filter_eq_nil_iff]
    intro x hx
    have hle := oid_le_getLast (p :: ps) hpage_sorted (List.cons_ne_nil p ps) x hx
    simp only [decide_eq_true_eq]
    omega
  have hsecond : ((remainingAfter coll cursor).drop b).filter
      (fun x => (((p :: ps)).getLast (List.cons_ne_nil p ps)).oid < x.oid)
      = (remainingAfter coll cursor).drop b := by
    rw [List.filter_eq_self]
    intro x hx
    have := hcross _ hlastmem x hx
    simpa using this
  conv_lhs => rw [hdecomp]
  rw [List.filter_append, hfirst, hsecond, List.nil_append]

theorem migrateCollectionAux_zero (b : Nat) (cn : String) (coll : List SrcProduct)
    (already : Nat) (store : List TDoc) (m d : Nat) (lastId : Option Nat) :
    migrateCollectionAux b cn coll already 0 store m d lastId = ⟨[], [], m, d, store⟩ := rfl

theorem migrateCollectionAux_succ_nil (b : Nat) (cn : String) (coll : List SrcProduct)
    (already fuel : Nat) (store : List TDoc) (m d : Nat) (lastId : Option Nat)
    (h : get_products_batch coll b lastId = []) :
    migrateCollectionAux b cn coll already (fuel + 1) store m d lastId
      = ⟨[], [], m, d, store⟩ := by
  unfold migrateCollectionAux
  rw [h]

theorem migrateCollectionAux_succ_cons (b : Nat) (cn : String) (coll : List SrcProduct)
    (already fuel : Nat) (store : List TDoc) (m d : Nat) (lastId : Option Nat)
    (p : SrcProduct) (ps : List SrcProduct)
    (h : get_products_batch coll b lastId = p :: ps) :
    migrateCollectionAux b cn coll already (fuel + 1) store m d lastId
      = (let r := insert_products_batch store (p :: ps) cn
         let newLast := some ((p :: ps).getLast (List.cons_ne_nil p ps)).oid
         let rest := migrateCollectionAux b cn coll already fuel r.store (m + r.inserted)
           (d + r.duplicates) newLast
         ⟨(p :: ps) :: rest.pages, ⟨already + (m + r.inserted), newLast⟩ :: rest.checkpoints,
          rest.migrated, rest.duplicates, rest.store⟩) := by
  conv_lhs => unfold migrateCollectionAux; rw [h]

/-- Every key already in the store survives a collection run, and after a
run over a sorted collection with enough fuel every record of the remaining
portion of the collection has its key in the target store. -/
theorem migrate_covers (b : Nat) (cn : String) (coll : List SrcProduct) (already : Nat)
    (hs : SortedSrc coll) (hb : 1 ≤ b) :
    ∀ (fuel : Nat) (cursor : Option Nat) (store : List TDoc) (m d : Nat),
      (remainingAfter coll cursor).length ≤ fuel →
      (∀ sid c2, hasSourceKey store sid c2 = true →
        hasSourceKey (migrateCollectionAux b cn coll already fuel store m d cursor).store
          sid c2 = true) ∧
      (∀ p ∈ remainingAfter coll cursor,
        hasSourceKey (migrateCollectionAux b cn coll already fuel store m d cursor).store
          p.oid cn = true) := by
  intro fuel
  induction fuel with
  | zero =>
    intro cursor store m d hlen
    have hrem : remainingAfter coll cursor = [] :=
      List.eq_nil_of_length_eq_zero (Nat.le_zero.mp hlen)
    constructor
    · intro sid c2 h
      rw [migrateCollectionAux_zero]
      exact h
    · intro p hp
      rw [hrem] at hp
      simp at hp
  | succ fuel ih =>
    intro cursor store m d hlen
    cases hpage : get_products_batch coll b cursor with
    | nil =>
      have hrem : remainingAfter coll cursor = [] := by
        have h1 := get_products_batch_eq coll b cursor
        rw [hpage] at h1
        rcases List.take_eq_nil_iff.mp h1.symm with hb0 | hnil
        · omega
        · exact hnil
      constructor
      · intro sid c2 h
        rw [migrateCollectionAux_succ_nil b cn coll already fuel store m d cursor hpage]
        exact h
      · intro p hp
        rw [hrem] at hp
        simp at hp
    | cons p ps =>
      have hpage2 : (remainingAfter coll cursor).take b = p :: ps := by
        rw [← get_products_batch_eq]
        exact hpage
      have hstep := remaining_step coll cursor b hs p ps hpage2
      have hlen2 : (remainingAfter coll
          (some ((p :: ps).getLast (List.cons_ne_nil p ps)).oid)).length ≤ fuel := by
        rw [hstep, List.length_drop]
        omega
      obtain ⟨ihmono, ihcov⟩ := ih (some ((p :: ps).getLast (List.cons_ne_nil p ps)).oid)
        (insert_products_batch store (p :: ps) cn).store
        (m + (insert_products_batch store (p :: ps) cn).inserted)
        (d + (insert_products_batch store (p :: ps) cn).duplicates) hlen2
      constructor
      · intro sid c2 h
        rw [migrateCollectionAux_succ_cons b cn coll already fuel store m d cursor p ps hpage]
        exact ihmono sid c2 (insert_mono store (p :: ps) cn sid c2 h)
      · intro q hq
        rw [migrateCollectionAux_succ_cons b cn coll already fuel store m d cursor p ps hpage]
        have hdecomp : remainingAfter coll cursor
            = (p :: ps) ++ (remainingAfter coll cursor).drop b := by
          conv_lhs => rw [← List.take_append_drop b (remainingAfter coll cursor)]
          rw [hpage2]
        rw [hdecomp] at hq
        rcases List.mem_append.mp hq with hq1 | hq2
        · exact ihmono q.oid cn (insert_covers store (p :: ps) cn q hq1)
        · rw [← hstep] at hq2
          exact ihcov q hq2

/-- A collection run over records whose keys are all already present inserts
nothing, counts one duplicate per remaining record, and leaves the target
store unchanged. -/
theorem migrate_all_dup (b : Nat) (cn : String) (coll : List SrcProduct) (already : Nat)
    (hs : SortedSrc coll) (hb : 1 ≤ b) :
    ∀ (fuel : Nat) (cursor : Option Nat) (store : List TDoc) (m d : Nat),
      (remainingAfter coll cursor).length ≤ fuel →
      (∀ p ∈ remainingAfter coll cursor, hasSourceKey store p.oid cn = true) →
      (migrateCollectionAux b cn coll already fuel store m d cursor).migrated = m ∧
      (migrateCollectionAux b cn coll already fuel store m d cursor).duplicates
        = d + (remainingAfter coll cursor).length ∧
      (migrateCollectionAux b cn coll already fuel store m d cursor).store = store := by
  intro fuel
  induction fuel with
  | zero =>
    intro cursor store m d hlen _
    have hrem : remainingAfter coll cursor = [] :=
      List.eq_nil_of_length_eq_zero (Nat.le_zero.mp hlen)
    rw [migrateCollectionAux_zero, hrem]
    exact ⟨rfl, by simp, rfl⟩
  | succ fuel ih =>
    intro cursor store m d hlen hkeys
    cases hpage : get_products_batch coll b cursor with
    | nil =>
      have hrem : remainingAfter coll cursor = [] := by
        have h1 := get_products_batch_eq coll b cursor
        rw [hpage] at h1
        rcases List.take_eq_nil_iff.mp h1.symm with hb0 | hnil
        · omega
        · exact hnil
      rw [migrateCollectionAux_succ_nil b cn coll already fuel store m d cursor hpage, hrem]
      exact ⟨rfl, by simp, rfl⟩
    | cons p ps =>
      have hpage2 : (remainingAfter coll cursor).take b = p :: ps := by
        rw [← get_products_batch_eq]
        exact hpage
      have hstep := remaining_step coll cursor b hs p ps hpage2
      have hdecomp : remainingAfter coll cursor
          = (p :: ps) ++ (remainingAfter coll cursor).drop b := by
        conv_lhs => rw [← List.take_append_drop b (remainingAfter coll cursor)]
        rw [hpage2]
      have hins : insert_products_batch store (p :: ps) cn
          = ⟨0, (p :: ps).length, store⟩ := by
        apply insert_all_dup
        intro q hq
        apply hkeys
        rw [hdecomp]
        exact List.mem_append.mpr (Or.inl hq)
      have hlen2 : (remainingAfter coll
          (some ((p :: ps).getLast (List.cons_ne_nil p ps)).oid)).length ≤ fuel := by
        rw [hstep, List.length_drop]
        omega
      have hkeys2 : ∀ q ∈ remainingAfter coll
          (some ((p :: ps).getLast (List.cons_ne_nil p ps)).oid),
          hasSourceKey store q.oid cn = true := by
        intro q hq
        rw [hstep] at hq
        apply hkeys
        rw [hdecomp]
        exact List.mem_append.mpr (Or.inr hq)
      obtain ⟨ih1, ih2, ih3⟩ := ih (some ((p :: ps).getLast (List.cons_ne_nil p ps)).oid)
        store (m + 0) (d + (p :: ps).length) hlen2 hkeys2
      rw [migrateCollectionAux_succ_cons b cn coll already fuel store m d cursor p ps hpage]
      simp only [hins]
      have hlensum : (remainingAfter coll cursor).length
          = (p :: ps).length + ((remainingAfter coll cursor).drop b).length := by
        conv_lhs => rw [hdecomp]
        rw [List.length_append]
      refine ⟨?_, ?_, ?_⟩
      · show (migrateCollectionAux b cn coll already fuel store (m + 0)
            ((d + (p :: ps).length)) _).migrated = m
        omega
      · show (migrateCollectionAux b cn coll already fuel store (m + 0)
            ((d + (p :: ps).length)) _).duplicates = d + (remainingAfter coll cursor).length
        rw [ih2, hstep]
        omega
      · exact ih3

/-- The collection loop persists exactly one checkpoint per fetched page:
checkpoint `j` carries the `_id` of the last record of page `j` as the new
cursor, and the final checkpoint carries the cumulative migrated count of
the whole run. -/
theorem migrate_checkpoints (b : Nat) (cn : String) (coll : List SrcProduct)
    (already : Nat) :
    ∀ (fuel : Nat) (store : List TDoc) (m d : Nat) (cursor : Option Nat),
      (migrateCollectionAux b cn coll already fuel store m d cursor).checkpoints.length
        = (migrateCollectionAux b cn coll already fuel store m d cursor).pages.length ∧
      (∀ j, j < (migrateCollectionAux b cn coll already fuel store m d cursor).pages.length →
        ((migrateCollectionAux b cn coll already fuel store m d cursor).checkpoints.getD j
            ⟨0, none⟩).last_processed_id
          = ((migrateCollectionAux b cn coll already fuel store m d cursor).pages.getD j
              []).getLast?.map (fun q => q.oid)) ∧
      ((migrateCollectionAux b cn coll already fuel store m d cursor).pages = [] →
        (migrateCollectionAux b cn coll already fuel store m d cursor).migrated = m ∧
        (migrateCollectionAux b cn coll already fuel store m d cursor).checkpoints = []) ∧
      ((migrateCollectionAux b cn coll already fuel store m d cursor).pages ≠ [] →
        ((migrateCollectionAux b cn coll already fuel store m d cursor).checkpoints.getLast?).map
            (fun c => c.migrated_products)
          = some (already
              + (migrateCollectionAux b cn coll already fuel store m d cursor).migrated)) := by
  intro fuel
  induction fuel with
  | zero =>
    intro store m d cursor
    rw [migrateCollectionAux_zero]
    refine ⟨rfl, ?_, fun _ => ⟨rfl, rfl⟩, fun h => absurd rfl h⟩
    intro j hj
    simp at hj
  | succ fuel ih =>
    intro store m d cursor
    cases hpage : get_products_batch coll b cursor with
    | nil =>
      rw [migrateCollectionAux_succ_nil b cn coll already fuel store m d cursor hpage]
      refine ⟨rfl, ?_, fun _ => ⟨rfl, rfl⟩, fun h => absurd rfl h⟩
      intro j hj
      simp at hj
    | cons p ps =>
      rw [migrateCollectionAux_succ_cons b cn coll already fuel store m d cursor p ps hpage]
      obtain ⟨ih1, ih2, ih3, ih4⟩ := ih (insert_products_batch store (p :: ps) cn).store
        (m + (insert_products_batch store (p :: ps) cn).inserted)
        (d + (insert_products_batch store (p :: ps) cn).duplicates)
        (some ((p :: ps).getLast (List.cons_ne_nil p ps)).oid)
      refine ⟨?_, ?_, ?_, ?_⟩
      · show _ + 1 = _ + 1
        rw [ih1]
      · intro j hj
        cases j with
        | zero =>
          show (⟨already + (m + (insert_products_batch store (p :: ps) cn).inserted),
              some ((p :: ps).getLast (List.cons_ne_nil p ps)).oid⟩ :
                Checkpoint).last_processed_id
            = ((p :: ps).getLast?.map (fun q => q.oid))
          rw [List.getLast?_eq_getLast (p :: ps) (List.cons_ne_nil p ps)]
          rfl
        | succ j =>
          have hj2 : j < (migrateCollectionAux b cn coll already fuel
              (insert_products_batch store (p :: ps) cn).store
              (m + (insert_products_batch store (p :: ps) cn).inserted)
              (d + (insert_products_batch store (p :: ps) cn).duplicates)
              (some ((p :: ps).getLast (List.cons_ne_nil p ps)).oid)).pages.length := by
            have := hj
            simp only [List.length_cons] at this
            omega
          exact ih2 j hj2
      · intro h
        simp at h
      · intro _
        by_cases hrp : (migrateCollectionAux b cn coll already fuel
            (insert_products_batch store (p :: ps) cn).store
            (m + (insert_products_batch store (p :: ps) cn).inserted)
            (d + (insert_products_batch store (p :: ps) cn).duplicates)
            (some ((p :: ps).getLast (List.cons_ne_nil p ps)).oid)).pages = []
        · obtain ⟨hm, hc⟩ := ih3 hrp
          show ((⟨already + (m + (insert_products_batch store (p :: ps) cn).inserted), _⟩ ::
              (migrateCollectionAux b cn coll already fuel _ _ _ _).checkpoints).getLast?).map
              (fun c => c.migrated_products) = _
          rw [hc]
          show some (already + (m + (insert_products_batch store (p :: ps) cn).inserted))
            = some (already + (migrateCollectionAux b cn coll already fuel
                (insert_products_batch store (p :: ps) cn).store
                (m + (insert_products_batch store (p :: ps) cn).inserted)
                (d + (insert_products_batch store (p :: ps) cn).duplicates)
                (some ((p :: ps).getLast (List.cons_ne_nil p ps)).oid)).migrated)
          rw [hm]
        · have h4 := ih4 hrp
          have hcne : (migrateCollectionAux b cn coll already fuel
              (insert_products_batch store (p :: ps) cn).store
              (m + (insert_products_batch store (p :: ps) cn).inserted)
              (d + (insert_products_batch store (p :: ps) cn).duplicates)
              (some ((p :: ps).getLast (List.cons_ne_nil p ps)).oid)).checkpoints ≠ [] := by
            intro hcnil
            rw [hcnil] at ih1
            have : (migrateCollectionAux b cn coll already fuel
                (insert_products_batch store (p :: ps) cn).store
                (m + (insert_products_batch store (p :: ps) cn).inserted)
                (d + (insert_products_batch store (p :: ps) cn).duplicates)
                (some ((p :: ps).getLast (List.cons_ne_nil p ps)).oid)).pages = [] :=
              List.eq_nil_of_length_eq_zero ih1.symm
            exact hrp this
          obtain ⟨c0, cs, hcs⟩ := List.exists_cons_of_ne_nil hcne
          show ((_ :: (migrateCollectionAux b cn coll already fuel _ _ _ _).checkpoints).getLast?).map
              (fun c => c.migrated_products) = _
          rw [hcs, List.getLast?_cons_cons, ← hcs]
          exact h4

theorem runAll_covers (fuel b : Nat) (hb : 1 ≤ b) :
    ∀ (source : List (String × List SrcProduct)),
      (∀ pr ∈ source, SortedSrc pr.2) →
      (∀ pr ∈ source, pr.2.length ≤ fuel) →
      ∀ (total : Nat) (store : List TDoc),
        (∀ sid c2, hasSourceKey store sid c2 = true →
          hasSourceKey (runAllCollections fuel b source total store).2.2 sid c2 = true) ∧
        (∀ pr ∈ source, ∀ p ∈ pr.2,
          hasSourceKey (runAllCollections fuel b source total store).2.2 p.oid pr.1
            = true) := by
  intro source
  induction source with
  | nil =>
    intro _ _ total store
    exact ⟨fun sid c2 h => h, fun pr hpr => absurd hpr (List.not_mem_nil pr)⟩
  | cons hd tl ih =>
    obtain ⟨cname, coll⟩ := hd
    intro hs hf total store
    have hstl := fun pr h => hs pr (List.mem_cons_of_mem _ h)
    have hftl := fun pr h => hf pr (List.mem_cons_of_mem _ h)
    have hshd : SortedSrc coll := hs _ (List.mem_cons_self _ tl)
    have hfhd : coll.length ≤ fuel := hf _ (List.mem_cons_self _ tl)
    by_cases hz : (coll.length == 0) = true
    · have hres : runAllCollections fuel b ((cname, coll) :: tl) total store
          = runAllCollections fuel b tl total store := by
        simp [runAllCollections, hz]
      have hcoll : coll = [] := List.eq_nil_of_length_eq_zero (by simpa using hz)
      obtain ⟨ihmono, ihcov⟩ := ih hstl hftl total store
      rw [hres]
      refine ⟨ihmono, ?_⟩
      intro pr hpr p hp
      rcases List.mem_cons.mp hpr with h1 | h2
      · rw [h1, hcoll] at hp
        simp at hp
      · exact ihcov pr h2 p hp
    · have hres : runAllCollections fuel b ((cname, coll) :: tl) total store
          = (let cr := migrate_collection fuel b cname coll total store
             let r := runAllCollections fuel b tl (total + cr.migrated) cr.store
             (cr :: r.1, r.2.1, r.2.2)) := by
        simp only [runAllCollections, hz, Bool.false_eq_true, if_false]
      have hmc := migrate_covers b cname coll total hshd hb fuel none store 0 0 hfhd
      obtain ⟨mcmono, mccov⟩ := hmc
      obtain ⟨ihmono, ihcov⟩ := ih hstl hftl
        (total + (migrate_collection fuel b cname coll total store).migrated)
        (migrate_collection fuel b cname coll total store).store
      rw [hres]
      constructor
      · intro sid c2 h
        exact ihmono sid c2 (mcmono sid c2 h)
      · intro pr hpr p hp
        rcases List.mem_cons.mp hpr with h1 | h2
        · subst h1
          exact ihmono p.oid cname (mccov p hp)
        · exact ihcov pr h2 p hp

theorem runAll_all_dup (fuel b : Nat) (hb : 1 ≤ b) :
    ∀ (source : List (String × List SrcProduct)),
      (∀ pr ∈ source, SortedSrc pr.2) →
      (∀ pr ∈ source, pr.2.length ≤ fuel) →
      ∀ (total : Nat) (store : List TDoc),
        (∀ pr ∈ source, ∀ p ∈ pr.2, hasSourceKey store p.oid pr.1 = true) →
        (runAllCollections fuel b source total store).2.1 = total ∧
        totalDuplicates (runAllCollections fuel b source total store).1
          = sourceCount source ∧
        (runAllCollections fuel b source total store).2.2 = store := by
  intro source
  induction source with
  | nil =>
    intro _ _ total store _
    exact ⟨rfl, rfl, rfl⟩
  | cons hd tl ih =>
    obtain ⟨cname, coll⟩ := hd
    intro hs hf total store hkeys
    have hstl := fun pr h => hs pr (List.mem_cons_of_mem _ h)
    have hftl := fun pr h => hf pr (List.mem_cons_of_mem _ h)
    have hktl : ∀ pr ∈ tl, ∀ p ∈ pr.2, hasSourceKey store p.oid pr.1 = true :=
      fun pr h => hkeys pr (List.mem_cons_of_mem _ h)
    by_cases hz : (coll.length == 0) = true
    · have hres : runAllCollections fuel b ((cname, coll) :: tl) total store
          = runAllCollections fuel b tl total store := by
        simp [runAllCollections, hz]
      have hcoll : coll.length = 0 := by simpa using hz
      obtain ⟨ih1, ih2, ih3⟩ := ih hstl hftl total store hktl
      rw [hres]
      refine ⟨ih1, ?_, ih3⟩
      rw [ih2]
      simp [sourceCount, hcoll]
    · have hres : runAllCollections fuel b ((cname, coll) :: tl) total store
          = (let cr := migrate_collection fuel b cname coll total store
             let r := runAllCollections fuel b tl (total + cr.migrated) cr.store
             (cr :: r.1, r.2.1, r.2.2)) := by
        simp only [runAllCollections, hz, Bool.false_eq_true, if_false]
      have hdup := migrate_all_dup b cname coll total (hs _ (List.mem_cons_self _ tl)) hb
        fuel none store 0 0 (hf _ (List.mem_cons_self _ tl))
        (fun p hp => hkeys _ (List.mem_cons_self _ tl) p hp)
      obtain ⟨hm, hd2, hst⟩ := hdup
      have hmigrate : (migrate_collection fuel b cname coll total store).migrated = 0 := hm
      have hdups : (migrate_collection fuel b cname coll total store).duplicates
          = coll.length := by
        have := hd2
        simpa [remainingAfter] using this
      have hstore : (migrate_collection fuel b cname coll total store).store = store := hst
      obtain ⟨ih1, ih2, ih3⟩ := ih hstl hftl
        (total + (migrate_collection fuel b cname coll total store).migrated)
        (migrate_collection fuel b cname coll total store).store
        (by rw [hstore]; exact hktl)
      rw [hres]
      refine ⟨?_, ?_, ?_⟩
      · show (runAllCollections fuel b tl
            (total + (migrate_collection fuel b cname coll total store).migrated)
            (migrate_collection fuel b cname coll total store).store).2.1 = total
        rw [ih1, hmigrate]
        omega
      · show totalDuplicates ((migrate_collection fuel b cname coll total store) ::
            (runAllCollections fuel b tl
              (total + (migrate_collection fuel b cname coll total store).migrated)
              (migrate_collection fuel b cname coll total store).store).1)
          = sourceCount ((cname, coll) :: tl)
        simp only [totalDuplicates, List.map_cons, List.sum_cons, sourceCount] at ih2 ⊢
        rw [ih2, hdups]
      · show (runAllCollections fuel b tl
            (total + (migrate_collection fuel b cname coll total store).migrated)
            (migrate_collection fuel b cname coll total store).store).2.2
          = store
        rw [ih3, hstore]

/-! ### Claim C4: migration idempotence through duplicate counting -/

/-- C4: the bulk insert treats unique-key violations on
`(source_id, source_collection)` as counted duplicates; hence a second
migration run over an unchanged source (sorted collections, positive batch
size, enough fuel to drain every collection) migrates zero records, reports
a duplicate count equal to the total source record count, and leaves the
target store exactly as the first run left it. -/
theorem claim_C4_migration_idempotent (fuel b : Nat)
    (source : List (String × List SrcProduct)) (store₀ : List TDoc)
    (hb : 1 ≤ b)
    (hs : ∀ pr ∈ source, SortedSrc pr.2)
    (hf : ∀ pr ∈ source, pr.2.length ≤ fuel) :
    (runAllCollections fuel b source 0
        (runAllCollections fuel b source 0 store₀).2.2).2.1 = 0 ∧
    totalDuplicates (runAllCollections fuel b source 0
        (runAllCollections fuel b source 0 store₀).2.2).1 = sourceCount source ∧
    (runAllCollections fuel b source 0
        (runAllCollections fuel b source 0 store₀).2.2).2.2
      = (runAllCollections fuel b source 0 store₀).2.2 :=
  runAll_all_dup fuel b hb source hs hf 0 _
    ((runAll_covers fuel b hb source hs hf 0 store₀).2)

def c4Source : List (String × List SrcProduct) :=
  [("c1", [⟨1, "a"⟩, ⟨2, "b"⟩, ⟨3, "c"⟩]), ("c2", []), ("c3", [⟨7, "x"⟩])]

/-- Witness for C4 over a three-collection source (sizes 3, 0, 1): the
second run inserts nothing, counts four duplicates, and leaves the store
unchanged. -/
theorem claim_C4_witness :
    (runAllCollections 5 2 c4Source 0 (runAllCollections 5 2 c4Source 0 []).2.2).2.1 = 0 ∧
    totalDuplicates (runAllCollections 5 2 c4Source 0
        (runAllCollections 5 2 c4Source 0 []).2.2).1 = sourceCount c4Source ∧
    (runAllCollections 5 2 c4Source 0 (runAllCollections 5 2 c4Source 0 []).2.2).2.2
      = (runAllCollections 5 2 c4Source 0 []).2.2 :=
  claim_C4_migration_idempotent 5 2 c4Source [] (by decide) (by decide) (by decide)

/-! ### Claim C6: checkpointing and resumption -/

def c6Job : MigrationJob := ⟨"m1", "running", 3, 2, some 2⟩

def c6Coll : List SrcProduct := [⟨1, "a"⟩, ⟨2, "b"⟩, ⟨3, "c"⟩]

def c6Store : List TDoc := [⟨"a", "c1", 1, .pending⟩, ⟨"b", "c1", 2, .pending⟩]

def dfltRun : CollectionRun := ⟨[], [], 0, 0, []⟩

/-- C6 counterexample: resuming an interrupted job whose persisted cursor is
`some 2` re-fetches the first page `[1, 2]` from the very beginning of the
collection; continuing from the persisted cursor would have fetched `[3]`.
The persisted `last_processed_id` is never consulted by
`resume_migration`. -/
theorem claim_C6_counterexample :
    ((resume_migration 5 2 c6Job [("c1", c6Coll)] c6Store).map
        (fun r => (r.1.headD dfltRun).pages.headD [])) = some [⟨1, "a"⟩, ⟨2, "b"⟩] ∧
    get_products_batch c6Coll 2 c6Job.last_processed_id = [⟨3, "c"⟩] ∧
    ([(⟨1, "a"⟩ : SrcProduct), ⟨2, "b"⟩] ≠ [(⟨3, "c"⟩ : SrcProduct)]) := by
  refine ⟨by decide, by decide, by decide⟩

/-- C6 as amended: the engine does persist `last_cursor` and
`migrated_count` after every page — one checkpoint per fetched page, whose
cursor is the page's last `_id`, the final one carrying the cumulative
count — but `resume_migration` on a non-completed job does not continue
from the persisted cursor: it re-runs the full scan of every source
collection from the beginning, exactly like a fresh run (duplicate-key
skipping makes this safe), independently of the job's `last_processed_id`
and `migrated_products`. -/
theorem claim_C6_checkpoint_resume :
    (∀ (b : Nat) (cn : String) (coll : List SrcProduct) (already fuel : Nat)
        (store : List TDoc) (m d : Nat) (cursor : Option Nat),
      (migrateCollectionAux b cn coll already fuel store m d cursor).checkpoints.length
        = (migrateCollectionAux b cn coll already fuel store m d cursor).pages.length ∧
      (∀ j, j < (migrateCollectionAux b cn coll already fuel store m d cursor).pages.length →
        ((migrateCollectionAux b cn coll already fuel store m d cursor).checkpoints.getD j
            ⟨0, none⟩).last_processed_id
          = ((migrateCollectionAux b cn coll already fuel store m d cursor).pages.getD j
              []).getLast?.map (fun q => q.oid)) ∧
      ((migrateCollectionAux b cn coll already fuel store m d cursor).pages ≠ [] →
        ((migrateCollectionAux b cn coll already fuel store m d cursor).checkpoints.getLast?).map
            (fun c => c.migrated_products)
          = some (already
              + (migrateCollectionAux b cn coll already fuel store m d cursor).migrated))) ∧
    (∀ (fuel b : Nat) (job : MigrationJob) (source : List (String × List SrcProduct))
        (store : List TDoc), job.status ≠ "completed" →
      resume_migration fuel b job source store
        = some (runAllCollections fuel b source 0 store)) := by
  constructor
  · intro b cn coll already fuel store m d cursor
    obtain ⟨h1, h2, _, h4⟩ := migrate_checkpoints b cn coll already fuel store m d cursor
    exact ⟨h1, h2, h4⟩
  · intro fuel b job source store h
    unfold resume_migration
    rw [if_neg]
    simpa using h

/-- Witness for the amended C6: the concrete interrupted job resumes as a
fresh run, and the concrete two-page collection run checkpoints each page's
last `_id` with the cumulative count. -/
theorem claim_C6_witness :
    ((migrateCollectionAux 2 "c1" c6Coll 0 5 [] 0 0 none).checkpoints.getD 0
        ⟨0, none⟩).last_processed_id
      = ((migrateCollectionAux 2 "c1" c6Coll 0 5 [] 0 0 none).pages.getD 0
          []).getLast?.map (fun q => q.oid) ∧
    ((migrateCollectionAux 2 "c1" c6Coll 0 5 [] 0 0 none).checkpoints.getLast?).map
        (fun c => c.migrated_products)
      = some (0 + (migrateCollectionAux 2 "c1" c6Coll 0 5 [] 0 0 none).migrated) ∧
    resume_migration 5 2 c6Job [("c1", c6Coll)] c6Store
      = some (runAllCollections 5 2 [("c1", c6Coll)] 0 c6Store) :=
  ⟨(claim_C6_checkpoint_resume.1 2 "c1" c6Coll 0 5 [] 0 0 none).2.1 0 (by decide),
   (claim_C6_checkpoint_resume.1 2 "c1" c6Coll 0 5 [] 0 0 none).2.2 (by decide),
   claim_C6_checkpoint_resume.2 5 2 c6Job [("c1", c6Coll)] c6Store (by decide)⟩

/-! ### Claim C2 supporting fact: the claim invariant the spec intends -/

/-- The status writes of a Stage-1 batch whose retries were exhausted by
non-overload errors: the whole batch is marked `failed` (this is the
behaviour C2 describes, which the 529 path of the code misses). -/
theorem process_batch_rate_limit_exhaustion :
    process_batch 10 3 (fun _ => Attempt.err .rateLimit) ["p1", "p2"] 0
      = ⟨.raised, ["p1", "p2"], [], 3⟩ := by
  decide
